import Mathlib

/-!
Verification development for the FusionFly evaluation engine
(`src/benchmark/evaluation/metrics.py` and
`src/test-files/benchmark_dataset 2/evaluation/metrics.py`).

The Python records are JSON documents; they are embedded as a `Value`
inductive.  JSON numbers (Python `int`/`float`) are modelled as exact
rationals `ℚ`; real-valued computations (square roots, trigonometry,
logarithms) live in `ℝ`.  Python `None` is `Option.none`, a raised
exception is `Except.error`.
-/

namespace FusionFly

/-- JSON-like value as loaded by `json.load`: objects are association
lists in document order (Python dicts preserve insertion order and have
unique keys). -/
inductive Value where
  | null
  | bool (b : Bool)
  | num (q : ℚ)
  | str (s : String)
  | arr (elems : List Value)
  | obj (entries : List (String × Value))

/-- Numeric view of a terminal value, mirroring Python's
`isinstance(value, (int, float))` test together with the numeric use the
callers make of the result.  Python `bool` is a subclass of `int`, so the
`isinstance` test accepts booleans; in all arithmetic contexts `True`
behaves as `1` and `False` as `0`, which is how they are rendered here.
Strings, lists, dicts and `None` are not numbers. -/
def toRat : Value → Option ℚ
  | .num q => some q
  | .bool b => some (if b then 1 else 0)
  | _ => none

/-- Character-list worker for `splitDots`. -/
def splitDotsAux : List Char → String → List String
  | [], acc => [acc]
  | c :: cs, acc => if c = '.' then acc :: splitDotsAux cs "" else splitDotsAux cs (acc.push c)

/-- Python `field_path.split('.')`: split on every dot, keeping empty
segments, so that the empty string yields `[""]` — exactly
`String.splitOn · "."`, written by structural recursion on the character
list. -/
def splitDots (s : String) : List String := splitDotsAux s.data ""

/-- Dictionary access `value[field]` guarded by
`isinstance(value, dict) and field in value`: on a non-dict, or a dict
without the key, the walk in `_get_nested_field` returns `None`. -/
def walkPath : Value → List String → Option Value
  | v, [] => some v
  | .obj kvs, f :: rest =>
    match kvs.lookup f with
    | some v => walkPath v rest
    | none => none
  | _, _ :: _ => none

/-- Embedding of `DataTransformationEvaluator._get_nested_field`
(src/benchmark/evaluation/metrics.py lines 215-235): split the dotted
path, walk nested dicts, and return the terminal value when
`isinstance(value, (int, float))` holds (which includes booleans, since
Python `bool` is a subclass of `int`), else `None`. -/
def getNestedField (data : Value) (fieldPath : String) : Option ℚ :=
  match walkPath data (splitDots fieldPath) with
  | some v => toRat v
  | none => none

/-- Python `data.get(key)` on a record sub-object: `some` on a dict that
has the key, otherwise `none`.  (In the source a present non-dict value
would be handled by the caller; all uses below guard with `is not None`
before dict access, matching this definition on the record shapes of the
data model.) -/
def dictGetValue : Value → String → Option Value
  | .obj kvs, k => kvs.lookup k
  | _, _ => none

/-- Python `subobj.get(key, 0)` followed by numeric use: missing keys are
replaced by the literal default `0`, as written in
`calculate_position_error` / `calculate_orientation_error` /
`calculate_acceleration_error` of the test-files module. -/
def getOrZero (v : Value) (k : String) : ℚ := ((dictGetValue v k).bind toRat).getD 0

/-- One sampled observation: the optional numeric `time_unix`
(floating-point seconds, absent records are excluded from matching) and
the remaining nested field mapping.  The evaluated field paths never name
`time_unix`, so splitting it from the rest of the record dict is faithful
for every path the metrics resolve. -/
structure Entry where
  time_unix : Option ℚ
  fields : Value

/-- One iteration of the nearest-timestamp loop shared by every matcher
in both modules: a converted entry with a timestamp replaces the current
best exactly when its absolute difference is strictly smaller
(`if time_diff < min_time_diff`), so the first entry achieving the
minimum is kept. -/
def stepClosest (gtTime : ℚ) (acc : Option (Entry × ℚ)) (e : Entry) : Option (Entry × ℚ) :=
  match e.time_unix with
  | none => acc
  | some ct =>
    let d := |gtTime - ct|
    match acc with
    | none => some (e, d)
    | some (b, m) => if d < m then some (e, d) else some (b, m)

/-- The nearest-timestamp scan of `_calculate_field_errors`
(lines 147-160) and its clones: starting from
`closest_entry = None, min_time_diff = inf`, scan the converted entries
in order.  If the ground-truth timestamp is absent no candidate ever
qualifies and the result is `none`. -/
def findClosest (gtTime : Option ℚ) (conv : List Entry) : Option (Entry × ℚ) :=
  match gtTime with
  | none => none
  | some t => conv.foldl (stepClosest t) none

/-- Contribution of one ground-truth entry to the error list of one field
in `_calculate_field_errors` (lines 147-171): accept the closest
converted entry only when the minimal difference is strictly below 0.1 s,
then record `abs(gt_value - conv_value)` only when both field values
resolve; in every other case the entry contributes nothing. -/
def fieldEntryError (conv : List Entry) (field : String) (e : Entry) : Option ℚ :=
  match findClosest e.time_unix conv with
  | none => none
  | some (c, d) =>
    if d < 1/10 then
      match getNestedField e.fields field, getNestedField c.fields field with
      | some gv, some cv => some |gv - cv|
      | _, _ => none
    else none

/-- The `errors` list accumulated for one field over all ground-truth
entries. -/
def fieldErrorsList (gtData convData : List Entry) (field : String) : List ℚ :=
  gtData.filterMap (fieldEntryError convData field)

/-- Maximum of a Python list as computed by `np.max` / `max`: `none` on
an empty list (the source only calls it on non-empty lists). -/
def npMax {α : Type} [LinearOrder α] : List α → Option α
  | [] => none
  | a :: t => some (t.foldl max a)

/-- Minimum, dual to `npMax`. -/
def npMin {α : Type} [LinearOrder α] : List α → Option α
  | [] => none
  | a :: t => some (t.foldl min a)

/-- Per-field statistics dict of `_calculate_field_errors`: the same
eight keys are produced in both branches (lines 191-211), so the key set
is fixed by this structure type. -/
structure FieldStats where
  mae : Option ℚ
  rmse : Option ℝ
  nrmse : Option ℝ
  max_error : Option ℚ
  min_error : Option ℚ
  std_error : Option ℝ
  num_matched_points : ℕ
  matched_percentage : ℚ

/-- The all-`None` statistics shape emitted when no error sample was
collected (lines 202-211). -/
def emptyFieldStats : FieldStats :=
  ⟨none, none, none, none, none, none, 0, 0⟩

/-- Embedding of the per-field body of `_calculate_field_errors`
(lines 143-211): collect the error samples, then either the all-`None`
shape, or mean / root-mean-square / normalized RMSE (RMSE divided by the
ground-truth value range when that range is positive) / max / min /
population standard deviation / match count / match percentage relative
to the full ground-truth list. -/
noncomputable def fieldStats (gtData convData : List Entry) (field : String) : FieldStats :=
  let errors := fieldErrorsList gtData convData field
  if errors.isEmpty then emptyFieldStats
  else
    let n : ℚ := (errors.length : ℚ)
    let mae := errors.sum / n
    let rmse : ℝ := Real.sqrt ((((errors.map (fun x => x ^ 2)).sum / n : ℚ) : ℝ))
    let gtVals := gtData.filterMap (fun en => getNestedField en.fields field)
    let nrmse : Option ℝ :=
      match npMax gtVals, npMin gtVals with
      | some hi, some lo => if 0 < hi - lo then some (rmse / ((hi - lo : ℚ) : ℝ)) else none
      | _, _ => none
    let variance : ℚ := (errors.map (fun x => (x - mae) ^ 2)).sum / n
    ⟨some mae, some rmse, nrmse, npMax errors, npMin errors,
      some (Real.sqrt (variance : ℝ)), errors.length,
      (errors.length : ℚ) / (gtData.length : ℚ) * 100⟩

/-- The full result of `_calculate_field_errors`: one statistics record
per requested field, in the given field order. -/
noncomputable def calculateFieldErrors (gtData convData : List Entry) (fields : List String) :
    List (String × FieldStats) :=
  fields.map (fun f => (f, fieldStats gtData convData f))

/-- Degrees-to-radians conversion `np.radians`. -/
noncomputable def radiansOf (d : ℝ) : ℝ := d * Real.pi / 180

/-- Radians-to-degrees conversion `np.degrees`. -/
noncomputable def degreesOf (r : ℝ) : ℝ := r * 180 / Real.pi

/-- WGS-84 semi-major axis, `a = 6378137.0` in `_lla_to_ecef`. -/
def wgsA : ℝ := 6378137

/-- WGS-84 flattening, `f = 1/298.257223563`. -/
noncomputable def wgsF : ℝ := 1 / 298.257223563

/-- Eccentricity squared, `e_sq = 2*f - f**2`. -/
noncomputable def wgsESq : ℝ := 2 * wgsF - wgsF ^ 2

/-- Embedding of `DataTransformationEvaluator._lla_to_ecef`
(src/benchmark/evaluation/metrics.py lines 322-354): `None` whenever any
of the three inputs is absent, otherwise the WGS-84 ellipsoidal
transform with `N = a / sqrt(1 - e_sq * sin(lat)^2)`. -/
noncomputable def lla_to_ecef (lat lon alt : Option ℝ) : Option (ℝ × ℝ × ℝ) :=
  match lat, lon, alt with
  | some la, some lo, some al =>
    let latR := radiansOf la
    let lonR := radiansOf lo
    let N := wgsA / Real.sqrt (1 - wgsESq * Real.sin latR ^ 2)
    some ((N + al) * Real.cos latR * Real.cos lonR,
          (N + al) * Real.cos latR * Real.sin lonR,
          (N * (1 - wgsESq) + al) * Real.sin latR)
  | _, _, _ => none

/-- Contribution of one ground-truth entry in `calculate_position_error`
(test-files module, lines 26-60): tolerance 1.0 s; once both
`position_lla` sub-objects are present, each missing leaf is replaced by
the default `0` of `.get(key, 0)` and the approximate metric error is
recorded. -/
noncomputable def positionEntryError (conv : List Entry) (e : Entry) : Option ℝ :=
  match findClosest e.time_unix conv with
  | none => none
  | some (c, d) =>
    if d < 1 then
      match dictGetValue e.fields "position_lla", dictGetValue c.fields "position_lla" with
      | some gp, some cp =>
        let latE := |getOrZero gp "latitude_deg" - getOrZero cp "latitude_deg"|
        let lonE := |getOrZero gp "longitude_deg" - getOrZero cp "longitude_deg"|
        let altE := |getOrZero gp "altitude_m" - getOrZero cp "altitude_m"|
        let latM : ℝ := (latE : ℝ) * 111000
        let lonM : ℝ := (lonE : ℝ) * 111000 * Real.cos (radiansOf ((getOrZero gp "latitude_deg" : ℚ) : ℝ))
        some (Real.sqrt (latM ^ 2 + lonM ^ 2 + ((altE : ℚ) : ℝ) ^ 2))
      | _, _ => none
    else none

/-- The `errors` list of `calculate_position_error`. -/
noncomputable def positionErrorsList (gtData convData : List Entry) : List ℝ :=
  gtData.filterMap (positionEntryError convData)

/-- Result shape of `calculate_position_error`: the same six keys in both
branches (lines 62-79). -/
structure PositionStats where
  mean_position_error_m : Option ℝ
  max_position_error_m : Option ℝ
  min_position_error_m : Option ℝ
  std_position_error_m : Option ℝ
  num_matched_points : ℕ
  matched_percentage : ℚ

/-- The all-`None` position statistics shape. -/
def emptyPositionStats : PositionStats := ⟨none, none, none, none, 0, 0⟩

/-- Embedding of `calculate_position_error` over the two `gnss_data`
record lists. -/
noncomputable def positionStats (gtData convData : List Entry) : PositionStats :=
  let errors := positionErrorsList gtData convData
  if errors.isEmpty then emptyPositionStats
  else
    let n : ℝ := (errors.length : ℝ)
    let mean := errors.sum / n
    let variance := (errors.map (fun x => (x - mean) ^ 2)).sum / n
    ⟨some mean, npMax errors, npMin errors, some (Real.sqrt variance), errors.length,
      (errors.length : ℚ) / (gtData.length : ℚ) * 100⟩

/-- Contribution of one ground-truth entry in
`calculate_orientation_error` (test-files module, lines 94-140):
tolerance 0.1 s; once both `orientation` sub-objects are present, missing
quaternion components default to `0` via `.get(key, 0)`, and the angle
`degrees(2*arccos(|dot|))` is recorded with the dot product clamped to
`[-1, 1]`. -/
noncomputable def orientationEntryError (conv : List Entry) (e : Entry) : Option ℝ :=
  match findClosest e.time_unix conv with
  | none => none
  | some (c, d) =>
    if d < 1/10 then
      match dictGetValue e.fields "orientation", dictGetValue c.fields "orientation" with
      | some go, some co =>
        let dot := getOrZero go "w" * getOrZero co "w" + getOrZero go "x" * getOrZero co "x" +
          getOrZero go "y" * getOrZero co "y" + getOrZero go "z" * getOrZero co "z"
        let dotC : ℚ := max (min dot 1) (-1)
        some (degreesOf (2 * Real.arccos |((dotC : ℚ) : ℝ)|))
      | _, _ => none
    else none

/-- Contribution of one ground-truth entry in
`calculate_acceleration_error` (test-files module, lines 174-204):
tolerance 0.1 s; once both `linear_acceleration` sub-objects are present,
missing components default to `0` and the 3-D error norm is recorded. -/
noncomputable def accelerationEntryError (conv : List Entry) (e : Entry) : Option ℝ :=
  match findClosest e.time_unix conv with
  | none => none
  | some (c, d) =>
    if d < 1/10 then
      match dictGetValue e.fields "linear_acceleration", dictGetValue c.fields "linear_acceleration" with
      | some ga, some ca =>
        let xE := |getOrZero ga "x" - getOrZero ca "x"|
        let yE := |getOrZero ga "y" - getOrZero ca "y"|
        let zE := |getOrZero ga "z" - getOrZero ca "z"|
        some (Real.sqrt (((xE : ℚ) : ℝ) ^ 2 + ((yE : ℚ) : ℝ) ^ 2 + ((zE : ℚ) : ℝ) ^ 2))
      | _, _ => none
    else none

/-- Python `min(conv_timestamps, key=lambda t: abs(t - gt_time))` used by
`_evaluate_temporal_transformation_accuracy` (line 402): first element
achieving the minimal key wins, since CPython's `min` replaces the
current best only on a strictly smaller key.  `none` on an empty list
(the caller guards on non-emptiness). -/
def minByKey (g : ℚ) : List ℚ → Option ℚ
  | [] => none
  | t :: ts => some (ts.foldl (fun best x => if |x - g| < |best - g| then x else best) t)

/-- The `timestamp_errors` list of
`_evaluate_temporal_transformation_accuracy` (lines 398-404): every
ground-truth timestamp contributes the distance to its nearest converted
timestamp in microseconds; no tolerance is applied. -/
def timestampErrors (gts convs : List ℚ) : List ℚ :=
  gts.filterMap (fun g => (minByKey g convs).map (fun c => |g - c| * 1000000))

/-- Numpy `np.histogram(values, bins)` bin counts over exact rationals:
equal-width bins from min to max (the range is widened by 0.5 on each
side when min = max, as numpy does), half-open `[l, r)` except for the
last bin which also includes the right edge. -/
def histCounts (values : List ℚ) (bins : ℕ) : List ℕ :=
  match values with
  | [] => []
  | a :: t =>
    let lo0 := t.foldl min a
    let hi0 := t.foldl max a
    let lo := if lo0 = hi0 then lo0 - 1/2 else lo0
    let hi := if lo0 = hi0 then hi0 + 1/2 else hi0
    (List.range bins).map (fun i =>
      let left := lo + (i : ℚ) * (hi - lo) / (bins : ℚ)
      let right := lo + ((i : ℚ) + 1) * (hi - lo) / (bins : ℚ)
      (values.filter (fun v =>
        decide (left ≤ v) && (decide (v < right) || (decide (i = bins - 1) && decide (v ≤ right))))).length)

/-- Shannon entropy in nats of a discrete distribution, as
`scipy.stats.entropy`: normalize the weights, then `-sum p*log p` with
the `0 * log 0 = 0` convention (scipy's `entr(0) = 0`). -/
noncomputable def scipyEntropy (pk : List ℚ) : ℝ :=
  let s := pk.sum
  let terms := pk.map (fun p =>
    let q := p / s
    if q = 0 then (0 : ℝ) else ((q : ℚ) : ℝ) * Real.log ((q : ℚ) : ℝ))
  show ℝ from -terms.sum

/-- Embedding of `DataTransformationEvaluator._calculate_entropy`
(src/benchmark/evaluation/metrics.py lines 837-859): `0` for an empty
list or fewer than 2 bins (`bins = min(20, n // 5)`), otherwise the
entropy of the normalized histogram. -/
noncomputable def calculateEntropy (values : List ℚ) : ℝ :=
  if values.isEmpty then 0
  else
    let bins := min 20 (values.length / 5)
    if bins < 2 then 0
    else
      let hist := histCounts values bins
      let total : ℚ := ((hist.sum : ℕ) : ℚ)
      scipyEntropy (hist.map (fun c => (c : ℚ) / total))

/-- The per-field entropy-ratio computation of
`_evaluate_information_content` (lines 752-758): `conv_entropy /
gt_entropy` when the ground-truth entropy is positive, else `None`. -/
noncomputable def entropyQuotientPair (gtVals convVals : List ℚ) : Option ℝ :=
  if 0 < calculateEntropy gtVals then some (calculateEntropy convVals / calculateEntropy gtVals)
  else none

/-- Dotted-name concatenation `f"{prefix}.{key}" if prefix else key` of
`_get_numerical_fields` and `_collect_fields`. -/
def joinName (p k : String) : String := if p = "" then k else p ++ "." ++ k

mutual
/-- Embedding of `DataTransformationEvaluator._get_numerical_fields`
(lines 861-883): enumerate, in document order, the dotted path of every
numeric leaf (booleans included, as Python `bool` is an `int`), recursing
into nested dicts and skipping everything else. -/
def numericalFields (p : String) : Value → List String
  | .obj kvs => numericalFieldsKvs p kvs
  | _ => []

/-- Key-by-key worker for `numericalFields`. -/
def numericalFieldsKvs (p : String) : List (String × Value) → List String
  | [] => []
  | (k, v) :: rest =>
    (match v with
     | .obj kvs2 => numericalFieldsKvs (joinName p k) kvs2
     | .num _ => [joinName p k]
     | .bool _ => [joinName p k]
     | _ => []) ++ numericalFieldsKvs p rest
end

/-- First-occurrence deduplication, the key order of a Python dict filled
by repeated insertion. -/
def firstDedup : List String → List String
  | [] => []
  | a :: l => a :: firstDedup (l.filter (fun x => x ≠ a))
termination_by l => l.length
decreasing_by
  simp only [List.length_cons]
  exact Nat.lt_succ_of_le (List.length_filter_le _ _)

/-- The `gt_fields[field]` list of `_evaluate_information_content`
(lines 727-735): for each raw ground-truth record dict (so `time_unix`
is enumerated like any other numeric leaf), one copy of the resolved
value per occurrence of the field name in that record's numeric-path
enumeration (values that fail to resolve are skipped). -/
def gtFieldValues (gtRecords : List Value) (field : String) : List ℚ :=
  gtRecords.flatMap (fun r =>
    ((numericalFields "" r).filter (fun f => f = field)).filterMap
      (fun _ => getNestedField r field))

/-- The `conv_fields[field]` list (lines 738-746): for each raw converted
record dict, the resolved value of the field when it resolves. -/
def convFieldValues (convRecords : List Value) (field : String) : List ℚ :=
  convRecords.filterMap (fun r => getNestedField r field)

/-- Top-level shape of `results["entropy_ratio"][filename]`
(lines 825-828): the running average over fields with a non-`None` ratio,
and the per-field ratio map. -/
structure EntropyPreservation where
  avg_entropy_quot : Option ℝ
  field_entropy_quot : List (String × Option ℝ)

/-- Embedding of the entropy-ratio part of
`_evaluate_information_content` for one file pair (lines 722-828),
operating on the raw record dicts exactly as the source does, so
`time_unix` participates in the field enumeration like any other numeric
leaf: a field is processed only when it is a key of `conv_fields` (which
happens exactly when the converted record list is non-empty) and both
collected value lists are non-empty; fields failing the guard are absent
from the map, not `None`. -/
noncomputable def entropyPreservation (gtRecords convRecords : List Value) : EntropyPreservation :=
  let keys := firstDedup (gtRecords.flatMap (fun r => numericalFields "" r))
  let ratios := keys.filterMap (fun f =>
    if 0 < convRecords.length ∧ 0 < (gtFieldValues gtRecords f).length ∧
        0 < (convFieldValues convRecords f).length then
      some (f, entropyQuotientPair (gtFieldValues gtRecords f) (convFieldValues convRecords f))
    else none)
  let valid := ratios.filterMap (fun pr => pr.2)
  ⟨if 0 < valid.length then some (valid.sum / (valid.length : ℝ)) else none, ratios⟩

/-- Per-file entry of `results["timestamp_conversion_error"][filename]`
in `_evaluate_temporal_transformation_accuracy` (lines 390-430): mean,
max, min and population standard deviation of the nearest-neighbour
timestamp errors in microseconds.  (The
`sampling_rate_preservation` entry is emitted under the same guard.) -/
structure TimestampStats where
  mean_error_us : ℚ
  max_error_us : Option ℚ
  min_error_us : Option ℚ
  std_error_us : ℝ

/-- Per-file emission of the timestamp-conversion metric: the source
filters out absent timestamps on both sides and writes the file's result
dict only inside `if gt_timestamps and conv_timestamps:` (line 396) —
when either list is empty, no entry is emitted for the file at all,
modelled as `none`. -/
noncomputable def timestampFileResult (gtData convData : List Entry) : Option TimestampStats :=
  let gts := gtData.filterMap (fun e => e.time_unix)
  let convs := convData.filterMap (fun e => e.time_unix)
  if 0 < gts.length ∧ 0 < convs.length then
    let errors := timestampErrors gts convs
    let n : ℚ := (errors.length : ℚ)
    let mean := errors.sum / n
    some ⟨mean, npMax errors, npMin errors,
      Real.sqrt ((((errors.map (fun x => (x - mean) ^ 2)).sum / n : ℚ) : ℝ))⟩
  else none

/-- Per-file entry of `results["schema_compliance_score"][filename]` in
`_evaluate_structural_transformation_accuracy` (lines 546-569). -/
structure ComplianceStats where
  compliance_score : ℚ
  compliant_fields : ℕ
  total_fields : ℕ

/-- Embedding of the schema-compliance computation for one file: with a
non-empty required-field list, count one `(record, field)` pair per
converted record and required field, the compliant ones being those that
resolve; when `total_fields` is zero (in particular for an empty
converted record list) the score is the literal `0`, not `None`
(line 563).  No entry is emitted when the required-field list is empty. -/
def schemaCompliance (convData : List Entry) (requiredFields : List String) :
    Option ComplianceStats :=
  if requiredFields.isEmpty then none
  else
    let total := convData.length * requiredFields.length
    let compliant := (convData.flatMap (fun e =>
      requiredFields.filter (fun f => (getNestedField e.fields f).isSome))).length
    some ⟨if 0 < total then (compliant : ℚ) / (total : ℚ) * 100 else 0, compliant, total⟩

/-- Embedding of `DataTransformationEvaluator._calculate_psd`
(src/benchmark/evaluation/metrics.py lines 1032-1047).  The source reads

  `f, psd = signal.welch(signal, nperseg=min(256, len(signal)//2))`

inside `def _calculate_psd(self, signal)`: the parameter `signal` (a
NumPy array) shadows the module import `import scipy.signal as signal`,
and an ndarray has no attribute `welch`, so evaluating `signal.welch`
raises `AttributeError` before any spectral computation happens.  The
embedding renders the raise as `Except.error "AttributeError"`; only the
short-signal guard path returns normally. -/
def calculatePsd (sig : List ℚ) : Except String (List ℝ) :=
  if sig.length < 10 then .ok []
  else .error "AttributeError"

/-- Pearson correlation coefficient `np.corrcoef(x, y)[0, 1]`. -/
noncomputable def pearsonCorr (xs ys : List ℝ) : ℝ :=
  let n : ℝ := (xs.length : ℝ)
  let mx := xs.sum / n
  let my := ys.sum / n
  let cov := ((xs.zip ys).map (fun pr => (pr.1 - mx) * (pr.2 - my))).sum / n
  let sx := Real.sqrt ((xs.map (fun x => (x - mx) ^ 2)).sum / n)
  let sy := Real.sqrt ((ys.map (fun y => (y - my) ^ 2)).sum / n)
  cov / (sx * sy)

/-- The frequency-response branch of `_evaluate_signal_fidelity` for one
field (lines 971-981): only for IMU files with more than 10 aligned
samples; both truncated signals are passed to `_calculate_psd`, whose
raised exception (see `calculatePsd`) propagates out of the metric;
otherwise the correlation of the two PSDs would be reported when both are
non-empty. -/
noncomputable def fieldFreqResponse (isImuFile : Bool) (gtSig convSig : List ℚ) :
    Except String (Option ℝ) :=
  let minLen := min gtSig.length convSig.length
  let g := gtSig.take minLen
  let c := convSig.take minLen
  if isImuFile = true ∧ 10 < minLen then
    match calculatePsd g with
    | .error e => .error e
    | .ok gp =>
      match calculatePsd c with
      | .error e => .error e
      | .ok cp =>
        if 0 < gp.length ∧ 0 < cp.length then
          let m := min gp.length cp.length
          .ok (some (pearsonCorr (gp.take m) (cp.take m)))
        else .ok none
  else .ok none

/-- Specification-side description of the dotted-path walk of §4.2 of the
spec: `WalksTo v segments w` holds when following the segments through
nested mappings from `v` reaches the terminal value `w`. -/
inductive WalksTo : Value → List String → Value → Prop where
  | nil (v : Value) : WalksTo v [] v
  | cons {kvs : List (String × Value)} {k : String} {p : List String} {u w : Value}
      (hk : kvs.lookup k = some u) (hrest : WalksTo u p w) : WalksTo (.obj kvs) (k :: p) w

/-- Specification-side statement that `b` is the first entry of `l`
achieving the minimal absolute time difference `m` to the query time `T`:
every timed entry before `b` is strictly farther, every timed entry after
is at least as far. -/
def IsFirstMin (T : ℚ) (l : List Entry) (b : Entry) (m : ℚ) : Prop :=
  ∃ l₁ l₂ t, l = l₁ ++ b :: l₂ ∧ b.time_unix = some t ∧ m = |T - t| ∧
    (∀ e ∈ l₁, ∀ t', e.time_unix = some t' → m < |T - t'|) ∧
    (∀ e ∈ l₂, ∀ t', e.time_unix = some t' → m ≤ |T - t'|)

/-- Concrete converted dataset used to exercise the aligner: an exact
match at time 1 sits after a non-matching record and an untimed record. -/
def sampleAlignConv : List Entry :=
  [⟨some 2, Value.null⟩, ⟨none, Value.null⟩, ⟨some 1, Value.null⟩]

/-- Concrete ground truth with a single timed record carrying field f. -/
def sampleGt : List Entry := [⟨some 0, Value.obj [("f", Value.num 0)]⟩]

/-- Two converted records tied at distance 1/20 from time 0, carrying
different field values, in one order. -/
def sampleTieA : List Entry :=
  [⟨some (-1/20), Value.obj [("f", Value.num 1)]⟩, ⟨some (1/20), Value.obj [("f", Value.num 2)]⟩]

/-- The same two records in the opposite order. -/
def sampleTieB : List Entry :=
  [⟨some (1/20), Value.obj [("f", Value.num 2)]⟩, ⟨some (-1/20), Value.obj [("f", Value.num 1)]⟩]

/-- Ground-truth record whose `position_lla` is present but misses
`longitude_deg` and `altitude_m`. -/
def samplePosGtE : Entry :=
  ⟨some 0, Value.obj [("position_lla", Value.obj [("latitude_deg", Value.num 1)])]⟩

/-- Converted record at the same time whose `position_lla` is present but
empty, so every leaf is missing. -/
def samplePosConvE : Entry := ⟨some 0, Value.obj [("position_lla", Value.obj [])]⟩

/-- A converted dataset whose only record is half a second away from
time 0. -/
def sampleFarConv : List Entry := [⟨some (1/2), Value.null⟩]

/-- Two distinct ground-truth records, in one order. -/
def sampleGtPairA : List Entry :=
  [⟨some 0, Value.obj [("f", Value.num 0)]⟩, ⟨some (1/20), Value.obj [("f", Value.num 3)]⟩]

/-- The same two ground-truth records, swapped. -/
def sampleGtPairB : List Entry :=
  [⟨some (1/20), Value.obj [("f", Value.num 3)]⟩, ⟨some 0, Value.obj [("f", Value.num 0)]⟩]

/-- One raw ground-truth record dict with a timestamp and one field, for
exercising the information-content metric. -/
def sampleRecords : List Value :=
  [Value.obj [("time_unix", Value.num 0), ("f", Value.num 1)]]

/-- Ten equal samples: enough for two histogram bins, but all values fall
into a single bin. -/
def sampleConstVals : List ℚ := List.replicate 10 5

/-- Ten samples split between two values, giving a two-bin histogram with
positive entropy. -/
def sampleSpreadVals : List ℚ := List.replicate 5 0 ++ List.replicate 5 1

/-! ## Helper lemmas -/

/-- Resolution with an empty converted list never matches, whatever the
ground-truth timestamp is. -/
theorem fieldEntryError_nil_conv (field : String) (e : Entry) :
    fieldEntryError [] field e = none := by
  cases h : e.time_unix <;> simp [fieldEntryError, findClosest, h]

/-- Position error against an empty converted list is never collected. -/
theorem positionEntryError_nil_conv (e : Entry) : positionEntryError [] e = none := by
  cases h : e.time_unix <;> simp [positionEntryError, findClosest, h]

/-- Walking the segment list and filtering for a numeric terminal agrees
with the specification predicate `WalksTo`. -/
theorem walk_toRat_iff (p : List String) : ∀ (v : Value) (q : ℚ),
    (match walkPath v p with
     | some w => toRat w
     | none => none) = some q ↔ ∃ w, WalksTo v p w ∧ toRat w = some q := by
  induction p with
  | nil =>
    intro v q
    have hW : walkPath v [] = some v := by cases v <;> rfl
    rw [hW]
    constructor
    · intro h
      exact ⟨v, WalksTo.nil v, h⟩
    · rintro ⟨w, hw, ht⟩
      cases hw
      exact ht
  | cons f rest ih =>
    intro v q
    cases v with
    | obj kvs =>
      cases hk : kvs.lookup f with
      | some u =>
        rw [show walkPath (Value.obj kvs) (f :: rest) = walkPath u rest by
          simp [walkPath, hk]]
        rw [ih u q]
        constructor
        · rintro ⟨w, hw, ht⟩
          exact ⟨w, WalksTo.cons hk hw, ht⟩
        · rintro ⟨w, hw, ht⟩
          cases hw with
          | cons hk2 hrest =>
            rw [hk] at hk2
            injection hk2 with hu
            subst hu
            exact ⟨w, hrest, ht⟩
      | none =>
        rw [show walkPath (Value.obj kvs) (f :: rest) = none by simp [walkPath, hk]]
        constructor
        · intro h
          cases h
        · rintro ⟨w, hw, ht⟩
          cases hw with
          | cons hk2 hrest =>
            rw [hk] at hk2
            cases hk2
    | null =>
      constructor
      · intro h
        cases h
      · rintro ⟨w, hw, ht⟩
        cases hw
    | bool b =>
      constructor
      · intro h
        cases h
      · rintro ⟨w, hw, ht⟩
        cases hw
    | num n =>
      constructor
      · intro h
        cases h
      · rintro ⟨w, hw, ht⟩
        cases hw
    | str s =>
      constructor
      · intro h
        cases h
      · rintro ⟨w, hw, ht⟩
        cases hw
    | arr xs =>
      constructor
      · intro h
        cases h
      · rintro ⟨w, hw, ht⟩
        cases hw

/-- Prepending an untimed entry preserves the first-minimum property. -/
theorem isFirstMin_cons_none {T : ℚ} {l : List Entry} {b : Entry} {m : ℚ} {e : Entry}
    (he : e.time_unix = none) (h : IsFirstMin T l b m) : IsFirstMin T (e :: l) b m := by
  obtain ⟨l₁, l₂, t, hsplit, hb, hm, h₁, h₂⟩ := h
  refine ⟨e :: l₁, l₂, t, by rw [hsplit, List.cons_append], hb, hm, ?_, h₂⟩
  intro x hx t' ht'
  rcases List.mem_cons.1 hx with rfl | hx
  · rw [he] at ht'
    cases ht'
  · exact h₁ x hx t' ht'

/-- Prepending a strictly farther timed entry preserves the first-minimum
property. -/
theorem isFirstMin_cons_lt {T : ℚ} {l : List Entry} {b : Entry} {m : ℚ} {e : Entry} {te : ℚ}
    (he : e.time_unix = some te) (hlt : m < |T - te|) (h : IsFirstMin T l b m) :
    IsFirstMin T (e :: l) b m := by
  obtain ⟨l₁, l₂, t, hsplit, hb, hm, h₁, h₂⟩ := h
  refine ⟨e :: l₁, l₂, t, by rw [hsplit, List.cons_append], hb, hm, ?_, h₂⟩
  intro x hx t' ht'
  rcases List.mem_cons.1 hx with rfl | hx
  · rw [he] at ht'
    injection ht' with hte
    rw [← hte]
    exact hlt
  · exact h₁ x hx t' ht'

/-- A head entry no farther than every later timed entry is the first
minimum. -/
theorem isFirstMin_head {T : ℚ} {l : List Entry} {b : Entry} {t : ℚ}
    (hb : b.time_unix = some t)
    (hall : ∀ x ∈ l, ∀ t', x.time_unix = some t' → |T - t| ≤ |T - t'|) :
    IsFirstMin T (b :: l) b |T - t| :=
  ⟨[], l, t, rfl, hb, rfl, by simp, hall⟩

/-- Invariant of the scanning loop with a current best `(b₀, m₀)`: either
the best never changes and every timed entry of the list is at least `m₀`
away, or the final best is strictly closer and is the first minimum of
the list. -/
theorem foldl_step_some (T : ℚ) : ∀ (l : List Entry) (b₀ : Entry) (m₀ : ℚ),
    (l.foldl (stepClosest T) (some (b₀, m₀)) = some (b₀, m₀) ∧
      ∀ x ∈ l, ∀ t', x.time_unix = some t' → m₀ ≤ |T - t'|) ∨
    (∃ b m, l.foldl (stepClosest T) (some (b₀, m₀)) = some (b, m) ∧ m < m₀ ∧
      IsFirstMin T l b m) := by
  intro l
  induction l with
  | nil =>
    intro b₀ m₀
    left
    exact ⟨rfl, by simp⟩
  | cons e rest ih =>
    intro b₀ m₀
    cases he : e.time_unix with
    | none =>
      have hstep : stepClosest T (some (b₀, m₀)) e = some (b₀, m₀) := by
        unfold stepClosest
        rw [he]
      rw [List.foldl_cons, hstep]
      rcases ih b₀ m₀ with ⟨heq, hall⟩ | ⟨b, m, heq, hm, hfm⟩
      · left
        refine ⟨heq, ?_⟩
        intro x hx t' ht'
        rcases List.mem_cons.1 hx with rfl | hx
        · rw [he] at ht'
          cases ht'
        · exact hall x hx t' ht'
      · right
        exact ⟨b, m, heq, hm, isFirstMin_cons_none he hfm⟩
    | some te =>
      by_cases hd : |T - te| < m₀
      · have hstep : stepClosest T (some (b₀, m₀)) e = some (e, |T - te|) := by
          unfold stepClosest
          rw [he]
          simp only [if_pos hd]
        rw [List.foldl_cons, hstep]
        rcases ih e |T - te| with ⟨heq, hall⟩ | ⟨b, m, heq, hm, hfm⟩
        · right
          exact ⟨e, |T - te|, heq, hd, isFirstMin_head he hall⟩
        · right
          exact ⟨b, m, heq, lt_trans hm hd, isFirstMin_cons_lt he hm hfm⟩
      · have hstep : stepClosest T (some (b₀, m₀)) e = some (b₀, m₀) := by
          unfold stepClosest
          rw [he]
          simp only [if_neg hd]
        rw [List.foldl_cons, hstep]
        rcases ih b₀ m₀ with ⟨heq, hall⟩ | ⟨b, m, heq, hm, hfm⟩
        · left
          refine ⟨heq, ?_⟩
          intro x hx t' ht'
          rcases List.mem_cons.1 hx with rfl | hx
          · rw [he] at ht'
            injection ht' with hte
            rw [← hte]
            exact not_lt.1 hd
          · exact hall x hx t' ht'
        · right
          exact ⟨b, m, heq, hm, isFirstMin_cons_lt he (lt_of_lt_of_le hm (not_lt.1 hd)) hfm⟩

/-- The scanning loop started from no candidate returns `none` exactly
when no entry is timed, and otherwise returns the first entry achieving
the minimal absolute difference. -/
theorem foldl_step_none (T : ℚ) : ∀ (l : List Entry),
    (l.foldl (stepClosest T) none = none ∧ ∀ x ∈ l, x.time_unix = none) ∨
    (∃ b m, l.foldl (stepClosest T) none = some (b, m) ∧ IsFirstMin T l b m) := by
  intro l
  induction l with
  | nil =>
    left
    exact ⟨rfl, by simp⟩
  | cons e rest ih =>
    cases he : e.time_unix with
    | none =>
      have hstep : stepClosest T none e = none := by
        unfold stepClosest
        rw [he]
      rw [List.foldl_cons, hstep]
      rcases ih with ⟨heq, hall⟩ | ⟨b, m, heq, hfm⟩
      · left
        refine ⟨heq, ?_⟩
        intro x hx
        rcases List.mem_cons.1 hx with rfl | hx
        · exact he
        · exact hall x hx
      · right
        exact ⟨b, m, heq, isFirstMin_cons_none he hfm⟩
    | some te =>
      have hstep : stepClosest T none e = some (e, |T - te|) := by
        unfold stepClosest
        rw [he]
      rw [List.foldl_cons, hstep]
      rcases foldl_step_some T rest e (|T - te|) with ⟨heq, hall⟩ | ⟨b, m, heq, hm, hfm⟩
      · right
        exact ⟨e, |T - te|, heq, isFirstMin_head he hall⟩
      · right
        exact ⟨b, m, heq, isFirstMin_cons_lt he hm hfm⟩

/-- Fold with `max` reaches an element (or the seed) that bounds the seed
and every element from above. -/
theorem foldlMax_spec {α : Type} [LinearOrder α] (t : List α) : ∀ a : α,
    (t.foldl max a = a ∨ t.foldl max a ∈ t) ∧ a ≤ t.foldl max a ∧
      ∀ x ∈ t, x ≤ t.foldl max a := by
  induction t with
  | nil =>
    intro a
    exact ⟨Or.inl rfl, le_refl a, by simp⟩
  | cons b t ih =>
    intro a
    rw [List.foldl_cons]
    obtain ⟨hmem, hle, hall⟩ := ih (max a b)
    refine ⟨?_, le_trans (le_max_left a b) hle, ?_⟩
    · rcases hmem with h | h
      · rcases max_choice a b with h2 | h2
        · left
          rw [h, h2]
        · right
          rw [h, h2]
          exact List.mem_cons_self b t
      · right
        exact List.mem_cons_of_mem b h
    · intro x hx
      rcases List.mem_cons.1 hx with rfl | hx
      · exact le_trans (le_max_right a x) hle
      · exact hall x hx

/-- Fold with `min`, dual to `foldlMax_spec`. -/
theorem foldlMin_spec {α : Type} [LinearOrder α] (t : List α) : ∀ a : α,
    (t.foldl min a = a ∨ t.foldl min a ∈ t) ∧ t.foldl min a ≤ a ∧
      ∀ x ∈ t, t.foldl min a ≤ x := by
  induction t with
  | nil =>
    intro a
    exact ⟨Or.inl rfl, le_refl a, by simp⟩
  | cons b t ih =>
    intro a
    rw [List.foldl_cons]
    obtain ⟨hmem, hle, hall⟩ := ih (min a b)
    refine ⟨?_, le_trans hle (min_le_left a b), ?_⟩
    · rcases hmem with h | h
      · rcases min_choice a b with h2 | h2
        · left
          rw [h, h2]
        · right
          rw [h, h2]
          exact List.mem_cons_self b t
      · right
        exact List.mem_cons_of_mem b h
    · intro x hx
      rcases List.mem_cons.1 hx with rfl | hx
      · exact le_trans hle (min_le_right a x)
      · exact hall x hx

/-- A computed maximum is an element bounding the list from above. -/
theorem npMax_mem_le {α : Type} [LinearOrder α] {l : List α} {m : α} (h : npMax l = some m) :
    m ∈ l ∧ ∀ x ∈ l, x ≤ m := by
  cases l with
  | nil => cases h
  | cons a t =>
    injection h with h
    subst h
    obtain ⟨hmem, hle, hall⟩ := foldlMax_spec t a
    constructor
    · rcases hmem with h | h
      · rw [h]
        exact List.mem_cons_self a t
      · exact List.mem_cons_of_mem a h
    · intro x hx
      rcases List.mem_cons.1 hx with rfl | hx
      · exact hle
      · exact hall x hx

/-- A computed minimum is an element bounding the list from below. -/
theorem npMin_mem_le {α : Type} [LinearOrder α] {l : List α} {m : α} (h : npMin l = some m) :
    m ∈ l ∧ ∀ x ∈ l, m ≤ x := by
  cases l with
  | nil => cases h
  | cons a t =>
    injection h with h
    subst h
    obtain ⟨hmem, hle, hall⟩ := foldlMin_spec t a
    constructor
    · rcases hmem with h | h
      · rw [h]
        exact List.mem_cons_self a t
      · exact List.mem_cons_of_mem a h
    · intro x hx
      rcases List.mem_cons.1 hx with rfl | hx
      · exact hle
      · exact hall x hx

/-- The maximum of a list is invariant under permutation. -/
theorem npMax_perm {α : Type} [LinearOrder α] {l l' : List α} (h : l.Perm l') :
    npMax l = npMax l' := by
  rcases l with _ | ⟨a, t⟩
  · rw [h.symm.eq_nil]
  · rcases l' with _ | ⟨a', t'⟩
    · cases h.eq_nil
    · obtain ⟨hmem, hall⟩ := npMax_mem_le (rfl : npMax (a :: t) = some (t.foldl max a))
      obtain ⟨hmem', hall'⟩ := npMax_mem_le (rfl : npMax (a' :: t') = some (t'.foldl max a'))
      have h1 : t.foldl max a ≤ t'.foldl max a' := hall' _ (h.mem_iff.1 hmem)
      have h2 : t'.foldl max a' ≤ t.foldl max a := hall _ (h.mem_iff.2 hmem')
      show some (t.foldl max a) = some (t'.foldl max a')
      rw [le_antisymm h1 h2]

/-- The minimum of a list is invariant under permutation. -/
theorem npMin_perm {α : Type} [LinearOrder α] {l l' : List α} (h : l.Perm l') :
    npMin l = npMin l' := by
  rcases l with _ | ⟨a, t⟩
  · rw [h.symm.eq_nil]
  · rcases l' with _ | ⟨a', t'⟩
    · cases h.eq_nil
    · obtain ⟨hmem, hall⟩ := npMin_mem_le (rfl : npMin (a :: t) = some (t.foldl min a))
      obtain ⟨hmem', hall'⟩ := npMin_mem_le (rfl : npMin (a' :: t') = some (t'.foldl min a'))
      have h1 : t'.foldl min a' ≤ t.foldl min a := hall' _ (h.mem_iff.1 hmem)
      have h2 : t.foldl min a ≤ t'.foldl min a' := hall _ (h.mem_iff.2 hmem')
      show some (t.foldl min a) = some (t'.foldl min a')
      rw [le_antisymm h2 h1]

/-- Histogram of ten equal values: everything lands in the upper of the
two widened bins. -/
theorem histCounts_const : histCounts sampleConstVals 2 = [0, 10] := by
  have hr : List.range 2 = [0, 1] := rfl
  simp only [sampleConstVals, histCounts, List.replicate, hr, List.map]
  norm_num [List.filter]

/-- Entropy of a constant sample list is zero: the histogram is a single
spike. -/
theorem calculateEntropy_const : calculateEntropy sampleConstVals = 0 := by
  have h10 : sampleConstVals.length = 10 := by simp [sampleConstVals]
  have hne : sampleConstVals.isEmpty = false := by simp [sampleConstVals]
  simp only [calculateEntropy, hne, h10, Bool.false_eq_true, if_false]
  norm_num [histCounts_const, scipyEntropy]

/-- Histogram of five zeros and five ones with two bins. -/
theorem histCounts_spread : histCounts sampleSpreadVals 2 = [5, 5] := by
  have hr : List.range 2 = [0, 1] := rfl
  simp only [sampleSpreadVals, histCounts, List.replicate, List.append, hr, List.map]
  norm_num [List.filter]

/-- Entropy of the uniform two-point distribution. -/
theorem scipyEntropy_halves : scipyEntropy [1/2, 1/2] = Real.log 2 := by
  simp only [scipyEntropy, List.map, List.sum]
  norm_num
  rw [show ((1:ℝ)/2) = (2:ℝ)⁻¹ by norm_num, Real.log_inv]
  ring

/-- The spread sample list has entropy `log 2 > 0`. -/
theorem calculateEntropy_spread : calculateEntropy sampleSpreadVals = Real.log 2 := by
  have hne : sampleSpreadVals.isEmpty = false := by simp [sampleSpreadVals]
  have hlen : sampleSpreadVals.length = 10 := by simp [sampleSpreadVals]
  simp only [calculateEntropy, hne, hlen, Bool.false_eq_true, if_false]
  norm_num [histCounts_spread]
  exact scipyEntropy_halves

/-! ## Claim theorems -/

/-- C1: for every ground-truth timestamp `T`, whenever the converted
dataset contains at least one record whose `time_unix` equals `T`
exactly, the temporal aligner matches a record at absolute time
difference zero, the matched record carries `time_unix = T`, and it is
the first record in iteration order achieving the minimal difference:
every earlier record with a timestamp has a timestamp different from
`T`. -/
theorem claim_C1_exact_match (T : ℚ) (conv : List Entry)
    (hex : ∃ e ∈ conv, e.time_unix = some T) :
    ∃ b, findClosest (some T) conv = some (b, 0) ∧ b.time_unix = some T ∧
      ∃ l₁ l₂, conv = l₁ ++ b :: l₂ ∧
        ∀ x ∈ l₁, ∀ t', x.time_unix = some t' → t' ≠ T := by
  obtain ⟨e0, he0mem, he0⟩ := hex
  rcases foldl_step_none T conv with ⟨_, hall⟩ | ⟨b, m, heq, hfm⟩
  · rw [hall e0 he0mem] at he0
    cases he0
  · obtain ⟨l₁, l₂, t, hsplit, hb, hm, h₁, h₂⟩ := hfm
    have hnn : 0 ≤ m := hm ▸ abs_nonneg _
    have hm0 : m = 0 := by
      rw [hsplit] at he0mem
      rcases List.mem_append.1 he0mem with hmem | hmem
      · have hlt := h₁ e0 hmem T he0
        rw [sub_self, abs_zero] at hlt
        exact absurd hlt (not_lt.2 hnn)
      · rcases List.mem_cons.1 hmem with rfl | hmem
        · rw [he0] at hb
          injection hb with hb'
          rw [hm, ← hb', sub_self, abs_zero]
        · have hle := h₂ e0 hmem T he0
          rw [sub_self, abs_zero] at hle
          exact le_antisymm hle hnn
    have htT : t = T := by
      rw [hm0] at hm
      have h' := hm.symm
      rw [abs_eq_zero, sub_eq_zero] at h'
      exact h'.symm
    refine ⟨b, ?_, ?_, l₁, l₂, hsplit, ?_⟩
    · show List.foldl (stepClosest T) none conv = some (b, 0)
      rw [heq, hm0]
    · rw [hb, htT]
    · intro x hx t' ht' hTT
      have hlt := h₁ x hx t' ht'
      rw [hTT, sub_self, abs_zero, hm0] at hlt
      exact absurd hlt (lt_irrefl 0)

/-- Witness for C1 at a concrete dataset: time 1 is matched exactly, the
matched record is the one at index 2, and the earlier timed record is at
a different time. -/
theorem claim_C1_witness :
    ∃ b, findClosest (some 1) sampleAlignConv = some (b, 0) ∧ b.time_unix = some 1 ∧
      ∃ l₁ l₂, sampleAlignConv = l₁ ++ b :: l₂ ∧
        ∀ x ∈ l₁, ∀ t', x.time_unix = some t' → t' ≠ 1 :=
  claim_C1_exact_match 1 sampleAlignConv ⟨⟨some 1, Value.null⟩, by simp [sampleAlignConv], rfl⟩

/-- C2 (code bug): the claim says that for IMU fields with at least 10
aligned samples the Welch power-spectral-density correlation is computed
and no exception propagates; in the code, `_calculate_psd` raises
`AttributeError` for every signal of length at least 10, because the
parameter `signal` shadows the `scipy.signal` module import, and the
frequency-response branch of `_evaluate_signal_fidelity` reaches that
call — and hence the exception — for every IMU field with more than 10
aligned samples. -/
theorem claim_C2_psd_raises :
    (∀ sig : List ℚ, 10 ≤ sig.length → calculatePsd sig = Except.error "AttributeError") ∧
    (∀ g c : List ℚ, 10 < min g.length c.length →
      fieldFreqResponse true g c = Except.error "AttributeError") := by
  constructor
  · intro sig h
    simp [calculatePsd, Nat.not_lt.mpr h]
  · intro g c h
    have hg : (g.take (min g.length c.length)).length = min g.length c.length := by
      simp [List.length_take, Nat.min_le_left]
    have herr : calculatePsd (g.take (min g.length c.length)) = Except.error "AttributeError" := by
      simp [calculatePsd, hg, Nat.not_lt.mpr (le_of_lt (Nat.lt_of_lt_of_le h (le_refl _)))]
    simp only [fieldFreqResponse]
    rw [if_pos (And.intro (by simp) h)]
    rw [herr]

/-- Witness for C2: a ten-sample signal already raises, and an IMU field
with eleven aligned samples propagates the exception out of the
frequency-response computation. -/
theorem claim_C2_witness :
    calculatePsd (List.replicate 10 (0:ℚ)) = Except.error "AttributeError" ∧
    fieldFreqResponse true (List.replicate 11 (0:ℚ)) (List.replicate 11 0) =
      Except.error "AttributeError" :=
  ⟨claim_C2_psd_raises.1 _ (by simp), claim_C2_psd_raises.2 _ _ (by simp)⟩

/-- C3 (amended): field resolution returns exactly the values reachable
by walking the dotted path segment by segment through nested mappings to
a terminal value that Python deems numeric — which includes booleans,
since `bool` is a subclass of `int` (`True` resolves as 1, `False` as 0)
— and returns `None`, never raising, in every other case: a missing
segment, a non-mapping intermediate value, or a terminal value that is
neither numeric nor boolean. -/
theorem claim_C3_resolution (record : Value) (path : String) (q : ℚ) :
    getNestedField record path = some q ↔
      ∃ w, WalksTo record (splitDots path) w ∧ toRat w = some q := by
  rw [show getNestedField record path =
      (match walkPath record (splitDots path) with
       | some w => toRat w
       | none => none) from rfl]
  exact walk_toRat_iff (splitDots path) record q

/-- Counterexample to C3 as stated: a boolean terminal value is not
excluded — `_get_nested_field` returns `True` (numerically 1), not
`None`, because `isinstance(True, (int, float))` holds in Python. -/
theorem claim_C3_counterexample :
    getNestedField (Value.obj [("flag", Value.bool true)]) "flag" = some 1 := by
  decide

/-- C4: geodetic-to-ECEF conversion returns `None` whenever any input is
absent; with all inputs present it implements the WGS-84 transform,
mapping `(0, 0, 0)` to exactly `(6378137, 0, 0)` and `(90, 0, 0)` to
`(0, 0, z)` with `z` within 0.1 m of 6356752.3. -/
theorem claim_C4_lla_to_ecef :
    (∀ lon alt, lla_to_ecef none lon alt = none) ∧
    (∀ lat alt, lla_to_ecef lat none alt = none) ∧
    (∀ lat lon, lla_to_ecef lat lon none = none) ∧
    lla_to_ecef (some 0) (some 0) (some 0) = some (6378137, 0, 0) ∧
    (∃ z : ℝ, lla_to_ecef (some 90) (some 0) (some 0) = some (0, 0, z) ∧
      |z - 6356752.3| < 1/10) := by
  refine ⟨?_, ?_, ?_, ?_, ?_⟩
  · intro lon alt
    cases lon <;> cases alt <;> rfl
  · intro lat alt
    cases lat <;> cases alt <;> rfl
  · intro lat lon
    cases lat <;> cases lon <;> rfl
  · have h0 : radiansOf 0 = 0 := by
      unfold radiansOf
      ring
    simp only [lla_to_ecef, h0, Real.sin_zero, Real.cos_zero]
    norm_num [wgsA, Real.sqrt_one]
  · have h90 : radiansOf 90 = Real.pi / 2 := by
      unfold radiansOf
      ring
    have h0 : radiansOf 0 = 0 := by
      unfold radiansOf
      ring
    have hFlt : (0:ℝ) < 1 - wgsF := by
      unfold wgsF
      norm_num
    have hE : (1:ℝ) - wgsESq = (1 - wgsF) ^ 2 := by
      unfold wgsESq
      ring
    refine ⟨wgsA * (1 - wgsF), ?_, ?_⟩
    · simp only [lla_to_ecef, h90, h0, Real.sin_pi_div_two, Real.cos_pi_div_two, Real.cos_zero,
        Real.sin_zero]
      norm_num [hE]
      rw [Real.sqrt_sq hFlt.le]
      field_simp
      ring
    · unfold wgsA wgsF
      rw [abs_lt]
      norm_num

/-- C5 (amended): the acceptance tolerances drop out-of-tolerance samples
in the per-field (0.1 s), orientation (0.1 s), acceleration (0.1 s) and
position (1.0 s) calculators — a matched record at or beyond the
tolerance contributes nothing — but the timestamp-conversion temporal
metric applies no tolerance at all: every ground-truth timestamp
contributes its nearest-neighbour error to that metric's statistics,
however large. -/
theorem claim_C5_amended_tolerances :
    (∀ conv field e c d, findClosest e.time_unix conv = some (c, d) → 1/10 ≤ d →
      fieldEntryError conv field e = none) ∧
    (∀ conv e c d, findClosest e.time_unix conv = some (c, d) → 1/10 ≤ d →
      orientationEntryError conv e = none) ∧
    (∀ conv e c d, findClosest e.time_unix conv = some (c, d) → 1/10 ≤ d →
      accelerationEntryError conv e = none) ∧
    (∀ conv e c d, findClosest e.time_unix conv = some (c, d) → 1 ≤ d →
      positionEntryError conv e = none) ∧
    (∀ gts convs g c, g ∈ gts → minByKey g convs = some c →
      (|g - c| * 1000000) ∈ timestampErrors gts convs) := by
  refine ⟨?_, ?_, ?_, ?_, ?_⟩
  · intro conv field e c d hf htol
    unfold fieldEntryError
    simp only [hf]
    rw [if_neg (not_lt.mpr htol)]
  · intro conv e c d hf htol
    unfold orientationEntryError
    simp only [hf]
    rw [if_neg (not_lt.mpr htol)]
  · intro conv e c d hf htol
    unfold accelerationEntryError
    simp only [hf]
    rw [if_neg (not_lt.mpr htol)]
  · intro conv e c d hf htol
    unfold positionEntryError
    simp only [hf]
    rw [if_neg (not_lt.mpr htol)]
  · intro gts convs g c hg hmin
    exact List.mem_filterMap.mpr ⟨g, hg, by rw [hmin]; rfl⟩

/-- Counterexample to C5 as stated: a ground-truth timestamp whose
nearest converted timestamp is 10 s away — far beyond the 0.1 s tolerance
the claim assigns to temporal metrics — still contributes its error of
10^7 microseconds to the timestamp-conversion statistics instead of being
dropped. -/
theorem claim_C5_counterexample :
    (1/10 : ℚ) ≤ |(0:ℚ) - 10| ∧ timestampErrors [0] [10] = [10000000] := by
  constructor
  · rw [le_abs]
    right
    norm_num
  · have h1 : timestampErrors [0] [10] = [|(0:ℚ) - 10| * 1000000] := rfl
    rw [h1]
    norm_num [abs_sub_comm]

/-- Witness for C5 (amended): a converted record half a second away is
dropped by the 0.1 s field tolerance, while a timestamp 10 s away still
enters the timestamp metric. -/
theorem claim_C5_witness :
    fieldEntryError sampleFarConv "f" ⟨some 0, Value.null⟩ = none ∧
    (|(0:ℚ) - 10| * 1000000) ∈ timestampErrors [0] [10] :=
  ⟨claim_C5_amended_tolerances.1 sampleFarConv "f" ⟨some 0, Value.null⟩ _ _ rfl
      (by rw [le_abs]; right; norm_num),
   claim_C5_amended_tolerances.2.2.2.2 [0] [10] 0 10 (by simp) rfl⟩

/-- C6 (amended): when the converted dataset is empty and the ground
truth is not, the per-field error calculator returns, for every requested
field, the fixed eight-key shape with `num_matched_points = 0`,
`matched_percentage = 0` and every other statistic `None`; the
entropy-ratio metric reports a `None` average over an empty field map;
the position-error calculator returns its fixed six-key all-`None`
shape — all without any exception.  The remaining metrics do not follow
this pattern: the timestamp-conversion (and sampling-rate) metric omits
the file's entry entirely, because its guard requires a non-empty
converted timestamp list, and schema compliance reports literal zeros
rather than `None`. -/
theorem claim_C6_empty_converted (gtData : List Entry) (fields : List String)
    (_hne : gtData ≠ []) :
    calculateFieldErrors gtData [] fields = fields.map (fun f => (f, emptyFieldStats)) ∧
    (∀ gtRecords : List Value, entropyPreservation gtRecords [] = ⟨none, []⟩) ∧
    positionStats gtData [] = emptyPositionStats ∧
    timestampFileResult gtData [] = none ∧
    (∀ reqFields : List String, reqFields ≠ [] →
      schemaCompliance [] reqFields = some ⟨0, 0, 0⟩) := by
  refine ⟨?_, ?_, ?_, ?_, ?_⟩
  · simp [calculateFieldErrors, fieldStats, fieldErrorsList, fieldEntryError_nil_conv]
  · intro gtRecords
    simp [entropyPreservation]
  · simp [positionStats, positionErrorsList, positionEntryError_nil_conv, emptyPositionStats]
  · simp [timestampFileResult]
  · intro reqFields hreq
    simp [schemaCompliance, hreq]

/-- Counterexample to C6 as stated: with a non-empty, timestamped ground
truth and an empty converted dataset, the timestamp-conversion metric
emits no per-file result at all — its key set is missing, not `None`-
filled — and the schema-compliance metric reports `compliance_score = 0`
with zero counts instead of `None` statistics. -/
theorem claim_C6_counterexample :
    timestampFileResult sampleGt [] = none ∧
    schemaCompliance [] ["dop.hdop"] = some ⟨0, 0, 0⟩ := by
  constructor
  · simp [timestampFileResult]
  · simp [schemaCompliance]

/-- Witness for C6 (amended) at a concrete non-empty ground truth. -/
theorem claim_C6_witness :
    calculateFieldErrors sampleGt [] ["f"] = [("f", emptyFieldStats)] ∧
    entropyPreservation sampleRecords [] = ⟨none, []⟩ ∧
    positionStats sampleGt [] = emptyPositionStats ∧
    timestampFileResult sampleGt [] = none ∧
    schemaCompliance [] ["position_lla.latitude_deg"] = some ⟨0, 0, 0⟩ := by
  have h := claim_C6_empty_converted sampleGt ["f"] (by simp [sampleGt])
  exact ⟨by rw [h.1]; rfl, h.2.1 sampleRecords, h.2.2.1, h.2.2.2.1,
    h.2.2.2.2 ["position_lla.latitude_deg"] (by simp)⟩

/-- C7 (amended): in the unified field-error calculator a field path that
does not resolve on either side excludes the record from the error list;
in the position, orientation and acceleration calculators of the
test-files module a record is excluded only when the containing
sub-mapping (`position_lla`, `orientation`, `linear_acceleration`) is
absent on either side — once both sub-mappings are present the record is
always counted, with each missing leaf component substituted by the
`.get(key, 0)` default of zero. -/
theorem claim_C7_amended_missing_fields :
    (∀ conv field e, getNestedField e.fields field = none → fieldEntryError conv field e = none) ∧
    (∀ conv field e c d, findClosest e.time_unix conv = some (c, d) →
      getNestedField c.fields field = none → fieldEntryError conv field e = none) ∧
    (∀ conv e, dictGetValue e.fields "position_lla" = none → positionEntryError conv e = none) ∧
    (∀ conv e, dictGetValue e.fields "orientation" = none → orientationEntryError conv e = none) ∧
    (∀ conv e, dictGetValue e.fields "linear_acceleration" = none →
      accelerationEntryError conv e = none) ∧
    (∀ conv e c d gp cp, findClosest e.time_unix conv = some (c, d) → d < 1 →
      dictGetValue e.fields "position_lla" = some gp →
      dictGetValue c.fields "position_lla" = some cp →
      ∃ r, positionEntryError conv e = some r) := by
  refine ⟨?_, ?_, ?_, ?_, ?_, ?_⟩
  · intro conv field e hmiss
    rcases hf : findClosest e.time_unix conv with _ | ⟨c, d⟩
    · unfold fieldEntryError
      simp only [hf]
    · unfold fieldEntryError
      simp only [hf]
      by_cases htol : d < 1/10
      · rw [if_pos htol, hmiss]
      · rw [if_neg htol]
  · intro conv field e c d hf hmiss
    unfold fieldEntryError
    simp only [hf]
    by_cases htol : d < 1/10
    · rw [if_pos htol, hmiss]
      cases hg : getNestedField e.fields field <;> rfl
    · rw [if_neg htol]
  · intro conv e hmiss
    rcases hf : findClosest e.time_unix conv with _ | ⟨c, d⟩
    · unfold positionEntryError
      simp only [hf]
    · unfold positionEntryError
      simp only [hf]
      by_cases htol : d < 1
      · rw [if_pos htol, hmiss]
      · rw [if_neg htol]
  · intro conv e hmiss
    rcases hf : findClosest e.time_unix conv with _ | ⟨c, d⟩
    · unfold orientationEntryError
      simp only [hf]
    · unfold orientationEntryError
      simp only [hf]
      by_cases htol : d < 1/10
      · rw [if_pos htol, hmiss]
      · rw [if_neg htol]
  · intro conv e hmiss
    rcases hf : findClosest e.time_unix conv with _ | ⟨c, d⟩
    · unfold accelerationEntryError
      simp only [hf]
    · unfold accelerationEntryError
      simp only [hf]
      by_cases htol : d < 1/10
      · rw [if_pos htol, hmiss]
      · rw [if_neg htol]
  · intro conv e c d gp cp hf htol hgp hcp
    unfold positionEntryError
    simp only [hf]
    rw [if_pos htol, hgp, hcp]
    exact ⟨_, rfl⟩

/-- Counterexample to C7 as stated: a converted record whose
`position_lla` is present but empty — so `latitude_deg` does not resolve
— is not excluded: `calculate_position_error` counts it as a matched
point, computing the error with the missing values replaced by zero. -/
theorem claim_C7_counterexample :
    (positionStats [samplePosGtE] [samplePosConvE]).num_matched_points = 1 := by
  have hf : findClosest samplePosGtE.time_unix [samplePosConvE] =
      some (samplePosConvE, |(0:ℚ) - 0|) := rfl
  have herr : ∃ r, positionEntryError [samplePosConvE] samplePosGtE = some r := by
    unfold positionEntryError
    simp only [hf]
    rw [if_pos (by norm_num : |(0:ℚ) - 0| < 1),
      (rfl : dictGetValue samplePosGtE.fields "position_lla" =
        some (Value.obj [("latitude_deg", Value.num 1)])),
      (rfl : dictGetValue samplePosConvE.fields "position_lla" = some (Value.obj []))]
    exact ⟨_, rfl⟩
  obtain ⟨r, hr⟩ := herr
  have hlist : positionErrorsList [samplePosGtE] [samplePosConvE] = [r] := by
    simp [positionErrorsList, hr]
  simp [positionStats, hlist]

/-- Witness for C7 (amended): a field path that does not resolve excludes
the record in the field-error calculator, while a present-but-empty
`position_lla` sub-mapping is still counted by the position calculator. -/
theorem claim_C7_witness :
    fieldEntryError [samplePosConvE] "missing" ⟨some 0, Value.null⟩ = none ∧
    (∃ r, positionEntryError [samplePosConvE] samplePosGtE = some r) :=
  ⟨claim_C7_amended_missing_fields.1 [samplePosConvE] "missing" ⟨some 0, Value.null⟩ rfl,
   claim_C7_amended_missing_fields.2.2.2.2.2 [samplePosConvE] samplePosGtE samplePosConvE
     (|(0:ℚ) - 0|) (Value.obj [("latitude_deg", Value.num 1)]) (Value.obj [])
     rfl (by norm_num) rfl rfl⟩

/-- C8 (amended): comparing a value list against itself, the entropy
ratio equals 1.0 exactly when the ground-truth entropy is positive;
fields whose histogram has at least two bins but whose values all fall in
one bin have entropy zero and report `None` instead. -/
theorem claim_C8_amended_self_entropy (vals : List ℚ) (hpos : 0 < calculateEntropy vals) :
    entropyQuotientPair vals vals = some 1 := by
  unfold entropyQuotientPair
  rw [if_pos hpos, div_self (ne_of_gt hpos)]

/-- Counterexample to C8 as stated: ten equal samples give the histogram
bin count `min(20, 10 // 5) = 2 ≥ 2`, yet the self-comparison entropy
ratio is `None`, not 1.0, because the entropy of a constant list is
zero. -/
theorem claim_C8_counterexample :
    2 ≤ min 20 (sampleConstVals.length / 5) ∧
    entropyQuotientPair sampleConstVals sampleConstVals = none := by
  constructor
  · simp [sampleConstVals]
  · unfold entropyQuotientPair
    rw [if_neg]
    rw [calculateEntropy_const]
    exact lt_irrefl 0

/-- Witness for C8 (amended): a two-valued sample list has entropy
`log 2 > 0` and self-compares to an entropy ratio of exactly 1. -/
theorem claim_C8_witness :
    entropyQuotientPair sampleSpreadVals sampleSpreadVals = some 1 :=
  claim_C8_amended_self_entropy sampleSpreadVals
    (by rw [calculateEntropy_spread]; exact Real.log_pos one_lt_two)

/-- C9 (amended): the per-field error statistics are unchanged under
every permutation of the ground-truth record list; they are not in
general unchanged under permutations of the converted record list, since
ties in the minimal time difference are broken by iteration order. -/
theorem claim_C9_amended_gt_perm (gtA gtB conv : List Entry) (field : String)
    (h : gtA.Perm gtB) : fieldStats gtA conv field = fieldStats gtB conv field := by
  have herr : (fieldErrorsList gtA conv field).Perm (fieldErrorsList gtB conv field) :=
    h.filterMap _
  have hvals : (gtA.filterMap (fun en => getNestedField en.fields field)).Perm
      (gtB.filterMap (fun en => getNestedField en.fields field)) := h.filterMap _
  have hlen := herr.length_eq
  have hsum := herr.sum_eq
  have hsq : ((fieldErrorsList gtA conv field).map (fun x => x ^ 2)).sum
      = ((fieldErrorsList gtB conv field).map (fun x => x ^ 2)).sum := (herr.map _).sum_eq
  have hmax := npMax_perm herr
  have hmin := npMin_perm herr
  have hvmax := npMax_perm hvals
  have hvmin := npMin_perm hvals
  have hglen := h.length_eq
  have hempty : (fieldErrorsList gtA conv field).isEmpty
      = (fieldErrorsList gtB conv field).isEmpty := by
    rcases hA : fieldErrorsList gtA conv field with _ | ⟨x, xs⟩
    · rw [hA] at herr
      rw [herr.symm.eq_nil]
    · rw [hA] at hlen
      rcases hB : fieldErrorsList gtB conv field with _ | ⟨y, ys⟩
      · rw [hB] at hlen
        cases hlen
      · rfl
  simp only [fieldStats]
  by_cases hAe : (fieldErrorsList gtA conv field).isEmpty = true
  · rw [if_pos hAe, if_pos (hempty ▸ hAe)]
  · rw [if_neg hAe, if_neg (hempty ▸ hAe)]
    have hstd : ((fieldErrorsList gtA conv field).map (fun x =>
        (x - (fieldErrorsList gtB conv field).sum /
          ((fieldErrorsList gtB conv field).length : ℚ)) ^ 2)).sum
        = ((fieldErrorsList gtB conv field).map (fun x =>
        (x - (fieldErrorsList gtB conv field).sum /
          ((fieldErrorsList gtB conv field).length : ℚ)) ^ 2)).sum :=
      (herr.map _).sum_eq
    rw [hsum, hlen, hsq, hmax, hmin, hvmax, hvmin, hglen, hstd]

/-- Counterexample to C9 as stated: with two converted records tied at
1/20 s from the ground-truth sample, swapping the converted list changes
the matched record and hence the mean absolute error, from 1 to 2. -/
theorem claim_C9_counterexample :
    sampleTieB.Perm sampleTieA ∧
    (fieldStats sampleGt sampleTieA "f").mae = some 1 ∧
    (fieldStats sampleGt sampleTieB "f").mae = some 2 := by
  refine ⟨?_, ?_, ?_⟩
  · exact List.Perm.swap _ _ _
  · have hA : fieldErrorsList sampleGt sampleTieA "f" = [1] := by
      with_unfolding_all decide
    simp only [fieldStats, hA]
    norm_num
  · have hB : fieldErrorsList sampleGt sampleTieB "f" = [2] := by
      with_unfolding_all decide
    simp only [fieldStats, hB]
    norm_num

/-- Witness for C9 (amended): swapping two concrete ground-truth records
leaves the per-field statistics unchanged. -/
theorem claim_C9_witness :
    fieldStats sampleGtPairA sampleTieA "f" = fieldStats sampleGtPairB sampleTieA "f" :=
  claim_C9_amended_gt_perm sampleGtPairA sampleGtPairB sampleTieA "f" (List.Perm.swap _ _ _)

/-- C10: the field-error and position-error calculators never divide by
zero in `matched_percentage`: the error list is non-empty only when the
ground-truth list is non-empty, and an empty ground-truth dataset
produces the all-`None` shape with `num_matched_points = 0` and
`matched_percentage = 0` for every field. -/
theorem claim_C10_no_zero_division :
    (∀ gtData convData field, fieldErrorsList gtData convData field ≠ [] → 0 < gtData.length) ∧
    (∀ gtData convData, positionErrorsList gtData convData ≠ [] → 0 < gtData.length) ∧
    (∀ convData fields, calculateFieldErrors [] convData fields =
      fields.map (fun f => (f, emptyFieldStats))) ∧
    (∀ convData, positionStats [] convData = emptyPositionStats) := by
  refine ⟨?_, ?_, ?_, ?_⟩
  · intro gtData convData field h
    cases gtData with
    | nil => simp [fieldErrorsList] at h
    | cons a t => simp
  · intro gtData convData h
    cases gtData with
    | nil => simp [positionErrorsList] at h
    | cons a t => simp
  · intro convData fields
    simp [calculateFieldErrors, fieldStats, fieldErrorsList]
  · intro convData
    simp [positionStats, positionErrorsList, emptyPositionStats]

/-- Witness for C10: a ground truth producing one error sample is indeed
non-empty. -/
theorem claim_C10_witness : 0 < sampleGt.length :=
  claim_C10_no_zero_division.1 sampleGt sampleTieA "f" (by
    have h : fieldErrorsList sampleGt sampleTieA "f" = [1] := by
      with_unfolding_all decide
    rw [h]
    simp)

end FusionFly

